import Mathlib

/-
Shallow embedding of libpassgen (src/src/lib.rs).

The library has three parts:
* `Pool`, a wrapper around `IndexSet<char>`: an insertion-ordered list of
  distinct characters.  We model it as a `List Char`; every constructor of
  the library maintains the no-duplicates invariant, which appears as a
  `Nodup` hypothesis in the general theorems.
* the samplers `generate_password` / `generate_n_passwords`: the thread-local
  RNG is modelled as an explicit stream `rng : ℕ → ℕ` of raw draws, and
  `Rng::gen_range(0, n)` as reduction of the raw draw modulo `n` (this captures
  exactly the in-range guarantee `0 ≤ idx < n` the code relies on).  The
  `assert!` panic on an empty pool is modelled as `Option.none`.
* the entropy formulas on `f64`: modelled by `F64`, rationals extended with
  the IEEE 754 special values NaN, ±∞ and -0.  Arithmetic on finite values is
  exact (no rounding); special values follow IEEE 754.  `log2` is exact on
  special values and on powers of two — the only finite points the
  specification and the tests evaluate it at; at other positive arguments the
  model returns the integer part of the exact logarithm.  Every concrete value
  the claims mention is rounding-insensitive, so on those points the model
  agrees with IEEE 754 double arithmetic.
-/

namespace Passgen

/-- Pool is a wrapper for IndexSet of chars: a list of distinct characters in
insertion order. -/
abbrev Pool := List Char

/-- IndexSet insert: if an equal character is already present the set is
unchanged, otherwise the character is appended at the end. -/
def ixInsert (p : Pool) (ch : Char) : Pool :=
  if ch ∈ p then p else p ++ [ch]

/-- FromStr body: collecting the characters of a string into an IndexSet
keeps the first occurrence of each character, in first-seen order. -/
def pool_from_str (s : String) : Pool :=
  s.toList.foldl ixInsert []

/-- FromStr for Pool always returns Ok; the error type ParseCharError is never
produced (modelled by Unit). -/
def pool_parse (s : String) : Except Unit Pool :=
  .ok (pool_from_str s)

/-- Display for Pool: concatenates the characters in current order. -/
def pool_display (p : Pool) : String :=
  String.mk p

/-- Pool::len. -/
def pool_len (p : Pool) : ℕ := p.length

/-- Pool::is_empty. -/
def pool_is_empty (p : Pool) : Bool := p.isEmpty

/-- Pool::get (IndexSet::get_index). -/
def pool_get (p : Pool) (i : ℕ) : Option Char := p.get? i

/-- Pool::contains. -/
def pool_contains (p : Pool) (ch : Char) : Bool := p.contains ch

/-- Pool::swap_remove (IndexSet::swap_remove): if the character is present at
index `i`, the last element is moved into slot `i` and the length shrinks by
one; returns whether a removal happened. -/
def swap_remove (p : Pool) (ch : Char) : Bool × Pool :=
  match p.indexOf? ch with
  | none => (false, p)
  | some i => (true, (p.set i (p.getLastD default)).dropLast)

/-- Pool::shift_remove (IndexSet::shift_remove): if the character is present at
index `i`, it is removed and all later elements shift left by one. -/
def shift_remove (p : Pool) (ch : Char) : Bool × Pool :=
  match p.indexOf? ch with
  | none => (false, p)
  | some i => (true, p.eraseIdx i)

/-- Derived PartialEq on Pool delegates to IndexSet equality, which is set
equality: equal lengths and every element of the first contained in the
second — insensitive to element order. -/
def poolEq (p q : Pool) : Bool :=
  p.length == q.length && p.all (fun c => q.contains c)

/-- generate_password: asserts the pool is nonempty (panic modelled as `none`),
then draws `length` indices uniformly from `0..pool.len()` (raw draw reduced
modulo the pool length) and concatenates the characters at those indices.
`pool.get(idx).unwrap()` is modelled by `Option.getD` with an arbitrary
default; the index is always in range, so the default is never used. -/
def generate_password (rng : ℕ → ℕ) (pool : Pool) (length : ℕ) :
    Option String :=
  if pool_is_empty pool then none
  else some (String.mk ((List.range length).map
    (fun i => (pool_get pool (rng i % pool_len pool)).getD default)))

/-- generate_n_passwords: asserts the pool is nonempty, then generates `count`
passwords in order, the n-th call consuming the next `length` raw draws of the
shared generator; `vec.insert(n, pass)` with `vec.len() == n` appends, so the
result lists the passwords in generation order. -/
def generate_n_passwords (rng : ℕ → ℕ) (pool : Pool) (length count : ℕ) :
    Option (List String) :=
  if pool_is_empty pool then none
  else some ((List.range count).map
    (fun n => (generate_password (fun i => rng (length * n + i)) pool
        length).getD ""))

/-- IEEE 754 double values, idealized: NaN, the two infinities, negative zero,
and `num q` for an exact rational value (`num 0` is positive zero). -/
inductive F64 where
  | nan : F64
  | posInf : F64
  | negInf : F64
  | negZero : F64
  | num : ℚ → F64
  deriving DecidableEq

/-- Conversion `usize as f64` (exact on the values the claims exercise). -/
def natToF64 (n : ℕ) : F64 := .num n

/-- Base-2 integer logarithm with explicit fuel; `log2Fuel f n = ⌊log2 n⌋`
whenever `f ≥ n ≥ 1`. -/
def log2Fuel : ℕ → ℕ → ℕ
  | 0, _ => 0
  | f + 1, n => if n ≤ 1 then 0 else log2Fuel f (n / 2) + 1

/-- Integer part of the base-2 logarithm of a positive rational, exact when
numerator and denominator are powers of two. -/
def ratLog2 (q : ℚ) : ℤ :=
  (log2Fuel q.num.natAbs q.num.natAbs : ℤ) - (log2Fuel q.den q.den : ℤ)

/-- f64::log2 per IEEE 754: log2(±0) = -∞, log2 of a negative value or of -∞
is NaN, log2(+∞) = +∞; on positive finite values the model returns the integer
part of the exact logarithm, which is exact at powers of two. -/
def f64Log2 : F64 → F64
  | .nan => .nan
  | .posInf => .posInf
  | .negInf => .nan
  | .negZero => .negInf
  | .num q =>
    if q = 0 then .negInf
    else if q < 0 then .nan
    else .num (ratLog2 q)

/-- f64 multiplication per IEEE 754: NaN propagates, 0 * ±∞ = NaN, the sign of
a zero or infinite product is the xor of the operand signs; finite products
are exact. -/
def f64Mul : F64 → F64 → F64
  | .nan, _ => .nan
  | _, .nan => .nan
  | .posInf, .posInf => .posInf
  | .posInf, .negInf => .negInf
  | .negInf, .posInf => .negInf
  | .negInf, .negInf => .posInf
  | .posInf, .negZero => .nan
  | .negZero, .posInf => .nan
  | .negInf, .negZero => .nan
  | .negZero, .negInf => .nan
  | .posInf, .num q => if q = 0 then .nan else if q < 0 then .negInf else .posInf
  | .num q, .posInf => if q = 0 then .nan else if q < 0 then .negInf else .posInf
  | .negInf, .num q => if q = 0 then .nan else if q < 0 then .posInf else .negInf
  | .num q, .negInf => if q = 0 then .nan else if q < 0 then .posInf else .negInf
  | .negZero, .negZero => .num 0
  | .negZero, .num q => if q < 0 then .num 0 else .negZero
  | .num q, .negZero => if q < 0 then .num 0 else .negZero
  | .num a, .num b =>
    if a * b = 0 then (if (a < 0) ≠ (b < 0) then .negZero else .num 0)
    else .num (a * b)

/-- f64 division per IEEE 754: NaN propagates, ±∞/±∞ and 0/0 are NaN, a
nonzero finite value divided by a zero is a signed infinity, a finite value
divided by an infinity is a signed zero; finite quotients are exact. -/
def f64Div : F64 → F64 → F64
  | .nan, _ => .nan
  | _, .nan => .nan
  | .posInf, .posInf => .nan
  | .posInf, .negInf => .nan
  | .negInf, .posInf => .nan
  | .negInf, .negInf => .nan
  | .posInf, .negZero => .negInf
  | .negInf, .negZero => .posInf
  | .posInf, .num q => if q < 0 then .negInf else .posInf
  | .negInf, .num q => if q < 0 then .posInf else .negInf
  | .negZero, .posInf => .negZero
  | .negZero, .negInf => .num 0
  | .num a, .posInf => if a < 0 then .negZero else .num 0
  | .num a, .negInf => if a < 0 then .num 0 else .negZero
  | .negZero, .negZero => .nan
  | .negZero, .num q => if q = 0 then .nan else if q < 0 then .num 0 else .negZero
  | .num a, .negZero => if a = 0 then .nan else if a < 0 then .posInf else .negInf
  | .num a, .num b =>
    if b = 0 then (if a = 0 then .nan else if a < 0 then .negInf else .posInf)
    else if a = 0 ∧ b < 0 then .negZero
    else .num (a / b)

/-- f64::ceil per IEEE 754: ceil of a value in (-1, 0], including -0, is -0. -/
def f64Ceil : F64 → F64
  | .nan => .nan
  | .posInf => .posInf
  | .negInf => .negInf
  | .negZero => .negZero
  | .num q => if q < 0 ∧ ⌈q⌉ = 0 then .negZero else .num (⌈q⌉ : ℚ)

/-- IEEE 754 equality (the == used by the tests): NaN compares unequal to
everything, -0 equals +0. -/
def f64Eq : F64 → F64 → Bool
  | .nan, _ => false
  | _, .nan => false
  | .posInf, .posInf => true
  | .negInf, .negInf => true
  | .negZero, .negZero => true
  | .negZero, .num b => decide (b = 0)
  | .num a, .negZero => decide (a = 0)
  | .num a, .num b => decide (a = b)
  | _, _ => false

/-- calculate_entropy: `length as f64 * (pool_size as f64).log2()`, with no
special-casing of any input. -/
def calculate_entropy (length pool_size : ℕ) : F64 :=
  f64Mul (natToF64 length) (f64Log2 (natToF64 pool_size))

/-- calculate_length: `(entropy / pool_size.log2()).ceil()`. -/
def calculate_length (entropy pool_size : F64) : F64 :=
  f64Ceil (f64Div entropy (f64Log2 pool_size))

/-- Comparison definition written from the specification wording for parsing:
keep the first occurrence of each character, dropping later duplicates. -/
def dedupKeepFirst : List Char → List Char
  | [] => []
  | c :: t => c :: dedupKeepFirst (t.filter (fun d => decide (d ≠ c)))
termination_by l => l.length
decreasing_by
  simpa using Nat.lt_succ_of_le (List.length_filter_le _ t)

/-! Helper lemmas about parsing and the pool invariant. -/

theorem dedupKeepFirst_mem (l : List Char) (c : Char) :
    c ∈ dedupKeepFirst l ↔ c ∈ l := by
  induction l using dedupKeepFirst.induct with
  | case1 => simp [dedupKeepFirst]
  | case2 d t ih =>
    rw [dedupKeepFirst]
    simp only [List.mem_cons, ih, List.mem_filter, decide_eq_true_eq]
    tauto

theorem dedupKeepFirst_nodup (l : List Char) : (dedupKeepFirst l).Nodup := by
  induction l using dedupKeepFirst.induct with
  | case1 => simp [dedupKeepFirst]
  | case2 d t ih =>
    rw [dedupKeepFirst]
    refine List.nodup_cons.mpr ⟨?_, ih⟩
    rw [dedupKeepFirst_mem]
    simp

theorem dedupKeepFirst_eq_self (l : List Char) (h : l.Nodup) :
    dedupKeepFirst l = l := by
  induction l with
  | nil => simp [dedupKeepFirst]
  | cons d t ih =>
    rw [List.nodup_cons] at h
    rw [dedupKeepFirst,
      List.filter_eq_self.mpr (fun a ha => by
        simp only [decide_eq_true_eq]
        exact fun had => h.1 (had ▸ ha)),
      ih h.2]

theorem foldl_ixInsert_eq (l : List Char) : ∀ acc : List Char,
    l.foldl ixInsert acc =
      acc ++ dedupKeepFirst (l.filter (fun d => decide (d ∉ acc))) := by
  induction l with
  | nil => intro acc; simp [dedupKeepFirst]
  | cons c t ih =>
    intro acc
    rw [List.foldl_cons, List.filter_cons]
    by_cases hc : c ∈ acc
    · rw [show ixInsert acc c = acc from if_pos hc, if_neg (by simp [hc])]
      exact ih acc
    · rw [show ixInsert acc c = acc ++ [c] from if_neg hc,
        if_pos (by simp [hc]), ih (acc ++ [c]),
        dedupKeepFirst, List.filter_filter, List.append_assoc,
        List.singleton_append]
      congr 2
      refine congrArg dedupKeepFirst (List.filter_congr ?_)
      intro a ha
      by_cases h1 : a ∈ acc <;> by_cases h2 : a = c <;> simp [h1, h2]

theorem pool_from_str_eq_dedupKeepFirst (s : String) :
    pool_from_str s = dedupKeepFirst s.toList := by
  rw [pool_from_str, foldl_ixInsert_eq]
  rw [List.filter_eq_self.mpr (by simp)]
  rfl

theorem pool_from_str_nodup (s : String) : (pool_from_str s).Nodup := by
  rw [pool_from_str_eq_dedupKeepFirst]
  exact dedupKeepFirst_nodup _

theorem mem_pool_from_str (s : String) (c : Char) :
    c ∈ pool_from_str s ↔ c ∈ s.toList := by
  rw [pool_from_str_eq_dedupKeepFirst]
  exact dedupKeepFirst_mem _ c

theorem poolEq_refl (p : Pool) : poolEq p p = true := by
  simp [poolEq, List.all_eq_true, List.elem_iff]

/-! Helper lemmas about the samplers. -/

theorem pool_is_empty_false (pool : Pool) (h : pool ≠ []) :
    ¬ pool_is_empty pool = true := by
  simp [pool_is_empty, List.isEmpty_iff, h]

theorem generate_password_eq_some (rng : ℕ → ℕ) (pool : Pool) (length : ℕ)
    (h : pool ≠ []) :
    generate_password rng pool length = some (String.mk ((List.range length).map
      (fun i => (pool_get pool (rng i % pool_len pool)).getD default))) := by
  rw [generate_password, if_neg (pool_is_empty_false pool h)]

theorem sampled_char_mem (pool : Pool) (h : pool ≠ []) (i : ℕ) :
    (pool_get pool (i % pool_len pool)).getD default ∈ pool := by
  have hlen : 0 < pool.length := List.length_pos.mpr h
  have hlt : i % pool.length < pool.length := Nat.mod_lt _ hlen
  rw [pool_get, pool_len, List.get?_eq_get hlt]
  exact List.get_mem pool _ hlt

/-! Helper lemmas about the entropy model. -/

theorem ratLog2_natCast (n : ℕ) : ratLog2 ((n : ℕ) : ℚ) = (log2Fuel n n : ℤ) := by
  rw [ratLog2, Rat.num_natCast, Rat.den_natCast]
  simp [show log2Fuel 1 1 = 0 from rfl]

theorem calculate_entropy_pool_zero (l : ℕ) (h : 0 < l) :
    calculate_entropy l 0 = F64.negInf := by
  rw [calculate_entropy, natToF64, natToF64]
  rw [show f64Log2 (.num ((0:ℕ):ℚ)) = F64.negInf by simp [f64Log2]]
  rw [f64Mul]
  have h1 : ¬ ((l:ℚ) = 0) := by exact_mod_cast Nat.pos_iff_ne_zero.mp h
  have h2 : ¬ ((l:ℚ) < 0) := not_lt.mpr (Nat.cast_nonneg l)
  simp [h1, h2]

theorem calculate_entropy_pool_one (l : ℕ) :
    calculate_entropy l 1 = F64.num 0 := by
  rw [calculate_entropy, natToF64, natToF64]
  rw [show f64Log2 (.num ((1:ℕ):ℚ)) = F64.num 0 by
    rw [f64Log2]
    norm_num
    rfl]
  rw [f64Mul]
  have h2 : ¬ ((l:ℚ) < 0) := not_lt.mpr (Nat.cast_nonneg l)
  simp [h2]

theorem calculate_entropy_len_zero (p : ℕ) (h : 0 < p) :
    calculate_entropy 0 p = F64.num 0 := by
  rw [calculate_entropy, natToF64, natToF64]
  have h1 : ¬ ((p:ℚ) = 0) := by exact_mod_cast Nat.pos_iff_ne_zero.mp h
  have h2 : ¬ ((p:ℚ) < 0) := not_lt.mpr (Nat.cast_nonneg p)
  rw [f64Log2]
  simp only [h1, if_false, h2]
  rw [ratLog2_natCast, f64Mul]
  have h3 : ¬ (((log2Fuel p p : ℤ) : ℚ) < 0) := not_lt.mpr (by positivity)
  simp [h3]

/-! The claims. -/

/-- Claim C1: for every nonempty pool and every length, generate_password
returns a string of exactly `length` characters, each a member of the pool,
and `length = 0` yields the empty string without error. -/
theorem generate_password_spec (rng : ℕ → ℕ) (pool : Pool) (length : ℕ)
    (h : pool ≠ []) :
    ∃ s : String, generate_password rng pool length = some s ∧
      s.length = length ∧ (∀ c ∈ s.data, c ∈ pool) ∧
      (length = 0 → s = "") := by
  refine ⟨_, generate_password_eq_some rng pool length h, ?_, ?_, ?_⟩
  · simp [String.length]
  · intro c hc
    simp only [String.data] at hc
    obtain ⟨i, hi, rfl⟩ := List.mem_map.mp hc
    exact sampled_char_mem pool h (rng i)
  · intro hl
    subst hl
    simp [String.mk]

/-- Witness for C1: a ten-character pool and length 15. -/
theorem generate_password_spec_witness :
    pool_from_str "0123456789" ≠ [] ∧
    ∃ s : String,
      generate_password (fun i => i) (pool_from_str "0123456789") 15 = some s ∧
      s.length = 15 ∧ (∀ c ∈ s.data, c ∈ pool_from_str "0123456789") ∧
      (15 = 0 → s = "") :=
  ⟨by decide,
    generate_password_spec (fun i => i) (pool_from_str "0123456789") 15
      (by decide)⟩

/-- Claim C2: on an empty pool both samplers fail (the fatal assertion,
modelled as `none`) before producing any output, for every requested length
(including zero) and count. -/
theorem empty_pool_sampling_fails (rng : ℕ → ℕ) (pool : Pool)
    (length count : ℕ) (h : pool_is_empty pool = true) :
    generate_password rng pool length = none ∧
    generate_n_passwords rng pool length count = none := by
  constructor
  · rw [generate_password, if_pos h]
  · rw [generate_n_passwords, if_pos h]

/-- Witness for C2: the empty pool with length 0 and count 0. -/
theorem empty_pool_sampling_fails_witness :
    pool_is_empty [] = true ∧
    generate_password (fun i => i) [] 0 = none ∧
    generate_n_passwords (fun i => i) [] 0 0 = none :=
  ⟨by decide, empty_pool_sampling_fails (fun i => i) [] 0 0 (by decide)⟩

/-- Counterexample to claim C3 as stated: there is no special-casing of
`length == 0` in calculate_entropy, so `calculate_entropy 0 0` is
`0 * log2(0) = 0 * -∞ = NaN`, not exactly 0 (NaN also compares unequal to 0
under IEEE equality). -/
theorem calculate_entropy_zero_zero_nan :
    calculate_entropy 0 0 = F64.nan ∧
    f64Eq (calculate_entropy 0 0) (F64.num 0) = false := by
  constructor
  · show f64Mul (.num ((0:ℕ):ℚ)) (f64Log2 (.num ((0:ℕ):ℚ))) = F64.nan
    rw [f64Log2]
    norm_num
    simp only [f64Mul]
    norm_num
  · show f64Eq (f64Mul (.num ((0:ℕ):ℚ)) (f64Log2 (.num ((0:ℕ):ℚ))))
      (F64.num 0) = false
    rw [f64Log2]
    norm_num
    simp only [f64Mul]
    norm_num
    rfl

/-- Claim C3 (amended): calculate_entropy is `length * log2(pool_size)` with
no special-casing; for `pool_size = 0` the result is -∞ when `length > 0` and
NaN when `length = 0` (IEEE 0 * -∞); `length = 0` with `pool_size ≥ 1` gives
exactly 0; `pool_size = 1` gives 0 for any length; and the four concrete
values from the specification hold. -/
theorem calculate_entropy_spec :
    (∀ l p : ℕ, calculate_entropy l p =
      f64Mul (natToF64 l) (f64Log2 (natToF64 p))) ∧
    (∀ l : ℕ, 0 < l → calculate_entropy l 0 = F64.negInf) ∧
    calculate_entropy 0 0 = F64.nan ∧
    (∀ p : ℕ, 0 < p → calculate_entropy 0 p = F64.num 0) ∧
    (∀ l : ℕ, calculate_entropy l 1 = F64.num 0) ∧
    calculate_entropy 12 64 = F64.num 72 ∧
    calculate_entropy 0 64 = F64.num 0 ∧
    calculate_entropy 12 0 = F64.negInf ∧
    calculate_entropy 12 1 = F64.num 0 := by
  refine ⟨fun l p => rfl, calculate_entropy_pool_zero, ?_,
    calculate_entropy_len_zero, calculate_entropy_pool_one, ?_, ?_,
    calculate_entropy_pool_zero 12 (by norm_num),
    calculate_entropy_pool_one 12⟩
  · show f64Mul (.num ((0:ℕ):ℚ)) (f64Log2 (.num ((0:ℕ):ℚ))) = F64.nan
    rw [f64Log2]
    norm_num
    simp only [f64Mul]
    norm_num
  · show f64Mul (.num ((12:ℕ):ℚ)) (f64Log2 (.num ((64:ℕ):ℚ))) = F64.num 72
    rw [f64Log2]
    norm_num
    rw [show ratLog2 (64:ℚ) = 6 from rfl]
    simp only [f64Mul]
    norm_num
  · exact calculate_entropy_len_zero 64 (by norm_num)

/-- Witness for C3: the hypotheses `0 < length` and `0 < pool_size` discharged
at 12 and 64. -/
theorem calculate_entropy_spec_witness :
    (0 < 12 ∧ calculate_entropy 12 0 = F64.negInf) ∧
    (0 < 64 ∧ calculate_entropy 0 64 = F64.num 0) :=
  ⟨⟨by norm_num, calculate_entropy_spec.2.1 12 (by norm_num)⟩,
   ⟨by norm_num, calculate_entropy_spec.2.2.2.1 64 (by norm_num)⟩⟩

/-- Claim C4: for every nonempty pool, generate_n_passwords returns exactly
`count` strings, each of exactly `length` characters drawn from the pool, in
generation order (the n-th entry is the password produced by the n-th call);
`count = 0` yields the empty sequence. -/
theorem generate_n_passwords_spec (rng : ℕ → ℕ) (pool : Pool)
    (length count : ℕ) (h : pool ≠ []) :
    ∃ ps : List String, generate_n_passwords rng pool length count = some ps ∧
      ps.length = count ∧
      (∀ pw ∈ ps, pw.length = length ∧ ∀ c ∈ pw.data, c ∈ pool) ∧
      (∀ n, n < count → ps[n]? =
        generate_password (fun i => rng (length * n + i)) pool length) ∧
      (count = 0 → ps = []) := by
  refine ⟨_, by rw [generate_n_passwords, if_neg (pool_is_empty_false pool h)],
    ?_, ?_, ?_, ?_⟩
  · simp
  · intro pw hpw
    obtain ⟨n, hn, rfl⟩ := List.mem_map.mp hpw
    rw [generate_password_eq_some _ pool length h]
    constructor
    · simp [String.length]
    · intro c hc
      simp only [Option.getD_some, String.data] at hc
      obtain ⟨i, hi, rfl⟩ := List.mem_map.mp hc
      exact sampled_char_mem pool h _
  · intro n hn
    rw [List.getElem?_map, List.getElem?_range hn, Option.map_some']
    rw [generate_password_eq_some _ pool length h, Option.getD_some]
  · intro hc
    subst hc
    simp

/-- Witness for C4: a ten-character pool, length 15, count 5. -/
theorem generate_n_passwords_spec_witness :
    pool_from_str "0123456789" ≠ [] ∧
    ∃ ps : List String,
      generate_n_passwords (fun i => i) (pool_from_str "0123456789") 15 5
        = some ps ∧
      ps.length = 5 ∧
      (∀ pw ∈ ps, pw.length = 15 ∧
        ∀ c ∈ pw.data, c ∈ pool_from_str "0123456789") ∧
      (∀ n, n < 5 → ps[n]? =
        generate_password (fun i => 15 * n + i)
          (pool_from_str "0123456789") 15) ∧
      (5 = 0 → ps = []) := by
  refine ⟨by decide, ?_⟩
  have hmain := generate_n_passwords_spec (fun i => i)
    (pool_from_str "0123456789") 15 5 (by decide)
  obtain ⟨ps, h1, h2, h3, h4, h5⟩ := hmain
  exact ⟨ps, h1, h2, h3, h4, h5⟩

/-- Claim C5: parsing a string into a pool never fails, and the resulting
pool has no duplicates, contains exactly the characters of the string, its
length is the number of distinct characters of the string, and it keeps the
first occurrence of each character in first-seen order (it equals the
specification-side first-seen deduplication). -/
theorem pool_from_str_spec (s : String) :
    pool_parse s = .ok (pool_from_str s) ∧
    (pool_from_str s).Nodup ∧
    (∀ c : Char, c ∈ pool_from_str s ↔ c ∈ s.toList) ∧
    pool_len (pool_from_str s) = s.toList.toFinset.card ∧
    pool_from_str s = dedupKeepFirst s.toList := by
  refine ⟨rfl, pool_from_str_nodup s, mem_pool_from_str s, ?_,
    pool_from_str_eq_dedupKeepFirst s⟩
  have hfin : (pool_from_str s).toFinset = s.toList.toFinset := by
    ext c
    simp [List.mem_toFinset, mem_pool_from_str]
  rw [pool_len, ← List.toFinset_card_of_nodup (pool_from_str_nodup s), hfin]

/-- Claim C6: calculate_length is `ceil(entropy / log2(pool_size))`, and the
concrete values from the specification hold: 22 at (128, 64), 0 at (0, 64),
-0 at (128, 0) which compares equal to 0 under IEEE equality, NaN at (0, 1),
and +∞ at (1, 1). -/
theorem calculate_length_spec :
    (∀ e p : F64, calculate_length e p = f64Ceil (f64Div e (f64Log2 p))) ∧
    calculate_length (.num 128) (.num 64) = F64.num 22 ∧
    calculate_length (.num 0) (.num 64) = F64.num 0 ∧
    calculate_length (.num 128) (.num 0) = F64.negZero ∧
    f64Eq (calculate_length (.num 128) (.num 0)) (F64.num 0) = true ∧
    calculate_length (.num 0) (.num 1) = F64.nan ∧
    calculate_length (.num 1) (.num 1) = F64.posInf := by
  have h0 : calculate_length (.num 128) (.num 0) = F64.negZero := by
    show f64Ceil (f64Div (.num 128) (f64Log2 (.num 0))) = F64.negZero
    rw [f64Log2]
    norm_num
    simp only [f64Div]
    norm_num
    simp [f64Ceil]
  refine ⟨fun e p => rfl, ?_, ?_, h0, by rw [h0]; rfl, ?_, ?_⟩
  · show f64Ceil (f64Div (.num 128) (f64Log2 (.num 64))) = F64.num 22
    rw [f64Log2]
    norm_num
    rw [show ratLog2 (64:ℚ) = 6 from rfl]
    simp only [f64Div]
    norm_num
    have hc : ⌈(64:ℚ)/3⌉ = 22 := by
      rw [Int.ceil_eq_iff]
      norm_num
    simp only [f64Ceil, hc]
    norm_num
  · show f64Ceil (f64Div (.num 0) (f64Log2 (.num 64))) = F64.num 0
    rw [f64Log2]
    norm_num
    rw [show ratLog2 (64:ℚ) = 6 from rfl]
    simp only [f64Div]
    norm_num
    simp [f64Ceil]
  · show f64Ceil (f64Div (.num 0) (f64Log2 (.num 1))) = F64.nan
    rw [f64Log2]
    norm_num
    rw [show ratLog2 (1:ℚ) = 0 from rfl]
    simp only [f64Div]
    norm_num
    simp [f64Ceil]
  · show f64Ceil (f64Div (.num 1) (f64Log2 (.num 1))) = F64.posInf
    rw [f64Log2]
    norm_num
    rw [show ratLog2 (1:ℚ) = 0 from rfl]
    simp only [f64Div]
    norm_num
    simp [f64Ceil]

/-- Claim C7: on the pool parsed from "abcdefz", swap_remove of the character
at index 1 returns true and moves the last element into the gap (index 1
becomes the last character), while shift_remove returns true and shifts the
subsequent elements left (index 1 becomes the following character); the
remaining elements keep their relative order in both cases. -/
theorem swap_shift_remove_concrete :
    swap_remove (pool_from_str "abcdefz") 'b' =
      (true, ['a', 'z', 'c', 'd', 'e', 'f']) ∧
    pool_get (swap_remove (pool_from_str "abcdefz") 'b').2 1 = some 'z' ∧
    shift_remove (pool_from_str "abcdefz") 'b' =
      (true, ['a', 'c', 'd', 'e', 'f', 'z']) ∧
    pool_get (shift_remove (pool_from_str "abcdefz") 'b').2 1 = some 'c' := by
  decide

/-- Claim C8: inserting a character already in the pool leaves the pool
unchanged (hence length and relative order are unchanged); inserting an
absent character appends it at the end without disturbing existing
positions. -/
theorem ixInsert_idempotent_spec (p : Pool) (ch : Char) :
    (ch ∈ p → ixInsert p ch = p) ∧ (ch ∉ p → ixInsert p ch = p ++ [ch]) :=
  ⟨fun h => if_pos h, fun h => if_neg h⟩

/-- Witness for C8: inserting a present and an absent character into the pool
parsed from "ABC". -/
theorem ixInsert_idempotent_spec_witness :
    ixInsert (pool_from_str "ABC") 'A' = pool_from_str "ABC" ∧
    ixInsert (pool_from_str "ABC") 'D' = pool_from_str "ABC" ++ ['D'] :=
  ⟨(ixInsert_idempotent_spec (pool_from_str "ABC") 'A').1 (by decide),
   (ixInsert_idempotent_spec (pool_from_str "ABC") 'D').2 (by decide)⟩

/-- Claim C9: for every pool obtained by parsing (no internal reordering since
parse), parsing the displayed string reconstructs a pool equal to it, both
literally and under the pool equality predicate. -/
theorem pool_roundtrip (s : String) :
    pool_from_str (pool_display (pool_from_str s)) = pool_from_str s ∧
    poolEq (pool_from_str (pool_display (pool_from_str s)))
      (pool_from_str s) = true := by
  have hkey : pool_from_str (pool_display (pool_from_str s))
      = pool_from_str s := by
    rw [pool_display, pool_from_str, show (String.mk (pool_from_str s)).toList
        = pool_from_str s from rfl, foldl_ixInsert_eq,
      List.filter_eq_self.mpr (by simp), List.nil_append,
      dedupKeepFirst_eq_self _ (pool_from_str_nodup s)]
  exact ⟨hkey, by rw [hkey]; exact poolEq_refl _⟩

/-- Claim C10: the derived equality on pools is set equality, insensitive to
element order: two duplicate-free pools with the same members compare
equal. -/
theorem poolEq_of_mem_iff (p q : Pool) (hp : p.Nodup) (hq : q.Nodup)
    (h : ∀ c : Char, c ∈ p ↔ c ∈ q) : poolEq p q = true := by
  have hperm : p.Perm q := (List.perm_ext_iff_of_nodup hp hq).mpr h
  simp only [poolEq, hperm.length_eq, beq_self_eq_true, Bool.true_and,
    List.all_eq_true]
  intro c hc
  simpa [List.elem_iff] using (h c).mp hc

/-- Witness for C10: the pools parsed from "31524" and "12345" have the same
characters in different insertion orders and compare equal. -/
theorem poolEq_of_mem_iff_witness :
    poolEq (pool_from_str "31524") (pool_from_str "12345") = true :=
  poolEq_of_mem_iff (pool_from_str "31524") (pool_from_str "12345")
    (by decide) (by decide)
    (by
      intro c
      rw [show pool_from_str "31524" = ['3', '1', '5', '2', '4'] from rfl,
        show pool_from_str "12345" = ['1', '2', '3', '4', '5'] from rfl]
      simp only [List.mem_cons, List.not_mem_nil, or_false]
      tauto)

end Passgen
